import Mathlib

/-!
Shallow embedding of `src/semcheck/changes.rs` from rust-semverver: the
change-classification and aggregation engine.  Span/Export mirror the
external `syntax_pos::Span` and `rustc::hir::def::Export` types as the
code uses them; `ChangeCategory`, `UnaryChange`, `BinaryChange`, `Change`
and `ChangeSet` are translated from the source.  The `BTreeSet<Change>`
is modelled as a sorted list with first-write-wins insertion, matching
`BTreeSet::insert` (an equal element already present is retained and the
new one discarded).
-/

namespace Semverver

/-- `syntax_pos::Span`: `{ lo: BytePos(u32), hi: BytePos(u32), ctxt: SyntaxContext }`
with the derived lexicographic `Ord` on `(lo, hi, ctxt)`. -/
structure Span where
  lo : Nat
  hi : Nat
  ctxt : Nat
deriving DecidableEq

/-- The derived lexicographic comparison on `Span` by `(lo, hi, ctxt)`. -/
def Span.cmp (a b : Span) : Ordering :=
  if a.lo < b.lo then .lt else if b.lo < a.lo then .gt
  else if a.hi < b.hi then .lt else if b.hi < a.hi then .gt
  else if a.ctxt < b.ctxt then .lt else if b.ctxt < a.ctxt then .gt
  else .eq

/-- `rustc::hir::def::Def`, opaque to this core (the tests use `Def::Err`). -/
inductive Def
  | Err
deriving DecidableEq

/-- `rustc::hir::def::Export`: `{ ident, def, span }`.  The identifier is
modelled as a plain string (interning is irrelevant to the core). -/
structure Export where
  ident : String
  def_ : Def
  span : Span
deriving DecidableEq

/-- `ChangeCategory`: the four severity levels, `derive(PartialOrd, Ord)`
in declaration order `Patch < NonBreaking < TechnicallyBreaking < Breaking`. -/
inductive ChangeCategory
  | Patch
  | NonBreaking
  | TechnicallyBreaking
  | Breaking
deriving DecidableEq

/-- Discriminant of `ChangeCategory`; the derived `Ord` compares these. -/
def ChangeCategory.toNat : ChangeCategory → Nat
  | .Patch => 0
  | .NonBreaking => 1
  | .TechnicallyBreaking => 2
  | .Breaking => 3

/-- The join of the derived total order on `ChangeCategory`. -/
def ChangeCategory.max (a b : ChangeCategory) : ChangeCategory :=
  if a.toNat < b.toNat then b else a

/-- `impl Default for ChangeCategory`: the default is `Patch`. -/
def ChangeCategory.default : ChangeCategory := .Patch

/-- `UnaryChange`: an item addition or removal, holding the item's export. -/
inductive UnaryChange
  | Addition (e : Export)
  | Removal (e : Export)
deriving DecidableEq

/-- `UnaryChange::export`: the export record of either variant. -/
def UnaryChange.export_ : UnaryChange → Export
  | .Addition e => e
  | .Removal e => e

/-- `UnaryChange::span`. -/
def UnaryChange.span (c : UnaryChange) : Span := c.export_.span

/-- `UnaryChange::ident`. -/
def UnaryChange.ident (c : UnaryChange) : String := c.export_.ident

/-- `UnaryChange::type_`: the display tag string. -/
def UnaryChange.type_ : UnaryChange → String
  | .Addition _ => "Addition"
  | .Removal _ => "Removal"

/-- `impl PartialEq for UnaryChange`: equality solely by span. -/
def UnaryChange.beq (a b : UnaryChange) : Bool := a.span = b.span

/-- `impl Ord for UnaryChange`: comparison solely by span. -/
def UnaryChange.cmp (a b : UnaryChange) : Ordering := Span.cmp a.span b.span

/-- `impl From<&UnaryChange> for ChangeCategory`. -/
def UnaryChange.toCategory : UnaryChange → ChangeCategory
  | .Addition _ => .TechnicallyBreaking
  | .Removal _ => .Breaking

/-- `BinaryChangeType`: the modification kinds; currently only `Unknown`. -/
inductive BinaryChangeType
  | Unknown
deriving DecidableEq

/-- `impl From<&BinaryChangeType> for ChangeCategory`. -/
def BinaryChangeType.toCategory : BinaryChangeType → ChangeCategory
  | .Unknown => .Breaking

/-- `BinaryChange`: `{ type_, old, new }` linking an old and a new export. -/
structure BinaryChange where
  type_ : BinaryChangeType
  old : Export
  new : Export
deriving DecidableEq

/-- `BinaryChange::new_span`. -/
def BinaryChange.new_span (c : BinaryChange) : Span := c.new.span

/-- `BinaryChange::old_span`. -/
def BinaryChange.old_span (c : BinaryChange) : Span := c.old.span

/-- `BinaryChange::ident`: reads from the `old` export. -/
def BinaryChange.ident (c : BinaryChange) : String := c.old.ident

/-- `impl PartialEq for BinaryChange`: equality solely by the new span. -/
def BinaryChange.beq (a b : BinaryChange) : Bool := a.new_span = b.new_span

/-- `impl Ord for BinaryChange`: comparison solely by the new span. -/
def BinaryChange.cmp (a b : BinaryChange) : Ordering :=
  Span.cmp a.new_span b.new_span

/-- `impl From<&BinaryChange> for ChangeCategory`: via the change type. -/
def BinaryChange.toCategory (c : BinaryChange) : ChangeCategory :=
  c.type_.toCategory

/-- `Change`: the discriminated union, `derive(PartialEq, Eq, PartialOrd, Ord)`. -/
inductive Change
  | Unary (u : UnaryChange)
  | Binary (b : BinaryChange)
deriving DecidableEq

/-- The derived `PartialEq` on `Change`: same discriminant, then the
variant's own (span-based) equality. -/
def Change.beq : Change → Change → Bool
  | .Unary a, .Unary b => UnaryChange.beq a b
  | .Binary a, .Binary b => BinaryChange.beq a b
  | _, _ => false

/-- The derived `Ord` on `Change`: discriminant first (`Unary` before
`Binary`), then the variant's own (span-based) comparison. -/
def Change.cmp : Change → Change → Ordering
  | .Unary a, .Unary b => UnaryChange.cmp a b
  | .Unary _, .Binary _ => .lt
  | .Binary _, .Unary _ => .gt
  | .Binary a, .Binary b => BinaryChange.cmp a b

/-- `impl From<&Change> for ChangeCategory`: delegate to the variant. -/
def Change.toCategory : Change → ChangeCategory
  | .Unary u => u.toCategory
  | .Binary b => b.toCategory

/-- `Change::new_addition`. -/
def Change.new_addition (e : Export) : Change := .Unary (.Addition e)

/-- `Change::new_removal`. -/
def Change.new_removal (e : Export) : Change := .Unary (.Removal e)

/-- `Change::new_binary`. -/
def Change.new_binary (t : BinaryChangeType) (old new : Export) : Change :=
  .Binary ⟨t, old, new⟩

/-- The span each variant is keyed by in its `Eq`/`Ord` impls: the record's
span for a unary change, the `new` record's span for a binary change. -/
def Change.keySpan : Change → Span
  | .Unary u => u.span
  | .Binary b => b.new_span

/-- `BTreeSet<Change>::insert` on the sorted element list: if an
`Ord`-equal element is present, the set is unchanged (the existing entry
is retained, the new one discarded); otherwise the element is placed at
its position. -/
def btreeInsert : List Change → Change → List Change
  | [], c => [c]
  | x :: xs, c =>
    match Change.cmp c x with
    | .lt => c :: x :: xs
    | .eq => x :: xs
    | .gt => x :: btreeInsert xs c

/-- `ChangeSet`: the recorded changes (a `BTreeSet`, modelled as its sorted
element list) and the most severe category recorded so far. -/
structure ChangeSet where
  changes : List Change
  max : ChangeCategory
deriving DecidableEq

/-- `ChangeSet::default()`: empty set, `Patch` severity. -/
def ChangeSet.default : ChangeSet := ⟨[], .Patch⟩

/-- `ChangeSet::add_change`: record the change's category into the running
maximum (`if cat > self.max { self.max = cat }`), then insert the change
into the set. -/
def ChangeSet.add_change (s : ChangeSet) (change : Change) : ChangeSet :=
  let cat := change.toCategory
  { changes := btreeInsert s.changes change
    max := if s.max.toNat < cat.toNat then cat else s.max }

/-- Insert a list of changes in order, starting from a given set. -/
def ChangeSet.insertAll (s : ChangeSet) (l : List Change) : ChangeSet :=
  l.foldl ChangeSet.add_change s

/-! Concrete fixtures used by the scenario theorems. -/

/-- Fixture: the export `foo` at span `[10,20)`. -/
def fooExport : Export := ⟨"foo", Def.Err, ⟨10, 20, 0⟩⟩

/-- Fixture: the export `bar` at span `[30,40)`. -/
def barExport : Export := ⟨"bar", Def.Err, ⟨30, 40, 0⟩⟩

/-- Fixture: an export named `bar` sharing `foo`'s span `[10,20)`. -/
def barAtFooSpan : Export := ⟨"bar", Def.Err, ⟨10, 20, 0⟩⟩

/-- Fixture: `Addition(foo)`. -/
def addFoo : Change := Change.new_addition fooExport

/-- Fixture: `Removal(bar)` at span `[30,40)`. -/
def remBar : Change := Change.new_removal barExport

/-- Fixture: a removal whose span coincides with `foo`'s. -/
def remFooSpan : Change := Change.new_removal barAtFooSpan

/-- Fixture: a modification change whose `new` record sits at span `[10,20)`. -/
def binMod : Change :=
  Change.new_binary BinaryChangeType.Unknown ⟨"old", Def.Err, ⟨1, 2, 0⟩⟩
    ⟨"new", Def.Err, ⟨10, 20, 0⟩⟩

/-! Basic facts about the span comparison. -/

theorem Span.cmp_eq_iff (a b : Span) : Span.cmp a b = .eq ↔ a = b := by
  unfold Span.cmp
  rcases a with ⟨alo, ahi, actxt⟩
  rcases b with ⟨blo, bhi, bctxt⟩
  simp only [Span.mk.injEq]
  split_ifs <;> simp_all <;> omega

theorem Span.cmp_lt_iff (a b : Span) :
    Span.cmp a b = .lt ↔
      a.lo < b.lo ∨ a.lo = b.lo ∧ (a.hi < b.hi ∨ a.hi = b.hi ∧ a.ctxt < b.ctxt) := by
  unfold Span.cmp
  split_ifs <;> simp_all <;> omega

theorem Span.cmp_gt_iff (a b : Span) :
    Span.cmp a b = .gt ↔
      b.lo < a.lo ∨ b.lo = a.lo ∧ (b.hi < a.hi ∨ b.hi = a.hi ∧ b.ctxt < a.ctxt) := by
  unfold Span.cmp
  split_ifs <;> simp_all <;> omega

theorem Span.cmp_lt_trans {a b c : Span}
    (h1 : Span.cmp a b = .lt) (h2 : Span.cmp b c = .lt) : Span.cmp a c = .lt := by
  rw [Span.cmp_lt_iff] at h1 h2 ⊢
  omega

theorem Span.cmp_gt_trans {a b c : Span}
    (h1 : Span.cmp a b = .gt) (h2 : Span.cmp b c = .gt) : Span.cmp a c = .gt := by
  rw [Span.cmp_gt_iff] at h1 h2 ⊢
  omega

/-! Facts about the derived order on `Change`. -/

theorem Change.cmp_eq_key {a b : Change} (h : Change.cmp a b = .eq) :
    a.keySpan = b.keySpan := by
  cases a <;> cases b <;>
    simp_all [Change.cmp, Change.keySpan, UnaryChange.cmp, BinaryChange.cmp,
      Span.cmp_eq_iff]

theorem Change.cmp_trans_lt {a b c : Change}
    (h1 : Change.cmp a b = .lt) (h2 : Change.cmp b c = .lt) :
    Change.cmp a c = .lt := by
  cases a <;> cases b <;> cases c <;>
    simp_all [Change.cmp, UnaryChange.cmp, BinaryChange.cmp] <;>
    exact Span.cmp_lt_trans h1 h2

theorem Change.cmp_trans_gt {a b c : Change}
    (h1 : Change.cmp a b = .gt) (h2 : Change.cmp b c = .gt) :
    Change.cmp a c = .gt := by
  cases a <;> cases b <;> cases c <;>
    simp_all [Change.cmp, UnaryChange.cmp, BinaryChange.cmp] <;>
    exact Span.cmp_gt_trans h1 h2

theorem Change.beq_trans {a b c : Change}
    (h1 : Change.beq a b = true) (h2 : Change.beq b c = true) :
    Change.beq a c = true := by
  cases a <;> cases b <;> cases c <;>
    simp_all [Change.beq, UnaryChange.beq, BinaryChange.beq]

/-! Facts about the running maximum severity. -/

theorem ChangeSet.add_change_max (s : ChangeSet) (c : Change) :
    (s.add_change c).max = ChangeCategory.max s.max c.toCategory := rfl

theorem ChangeCategory.max_right_comm (m a b : ChangeCategory) :
    ChangeCategory.max (ChangeCategory.max m a) b =
      ChangeCategory.max (ChangeCategory.max m b) a := by
  cases m <;> cases a <;> cases b <;> decide

theorem ChangeSet.insertAll_max (l : List Change) (s : ChangeSet) :
    (s.insertAll l).max =
      l.foldl (fun m c => ChangeCategory.max m c.toCategory) s.max := by
  induction l generalizing s with
  | nil => rfl
  | cons x xs ih =>
    simpa [ChangeSet.insertAll, List.foldl] using ih (s.add_change x)

theorem foldl_catMax_perm {l1 l2 : List Change} (h : l1.Perm l2)
    (m : ChangeCategory) :
    l1.foldl (fun m c => ChangeCategory.max m c.toCategory) m =
      l2.foldl (fun m c => ChangeCategory.max m c.toCategory) m := by
  induction h generalizing m with
  | nil => rfl
  | cons x _ ih => simpa [List.foldl] using ih _
  | swap x y l =>
    simp only [List.foldl]
    rw [ChangeCategory.max_right_comm]
  | trans _ _ ih1 ih2 => rw [ih1, ih2]

/-! Key-membership facts about insertion into the ordered set. -/

theorem mem_key_btreeInsert (l : List Change) (c : Change) (s : Span) :
    (∃ d ∈ btreeInsert l c, d.keySpan = s) ↔
      (∃ d ∈ l, d.keySpan = s) ∨ c.keySpan = s := by
  induction l with
  | nil => simp [btreeInsert]
  | cons x xs ih =>
    rcases hcx : Change.cmp c x with _ | _ | _ <;>
      simp only [btreeInsert, hcx]
    · simp only [List.mem_cons]
      constructor
      · rintro ⟨d, (rfl | rfl | hd), hs⟩
        · exact Or.inr hs
        · exact Or.inl ⟨d, Or.inl rfl, hs⟩
        · exact Or.inl ⟨d, Or.inr hd, hs⟩
      · rintro (⟨d, hd, hs⟩ | hs)
        · exact ⟨d, Or.inr hd, hs⟩
        · exact ⟨c, Or.inl rfl, hs⟩
    · have hkey : c.keySpan = x.keySpan := Change.cmp_eq_key hcx
      constructor
      · exact Or.inl
      · rintro (hd | hs)
        · exact hd
        · exact ⟨x, List.mem_cons_self _ _, by rw [← hkey, hs]⟩
    · simp only [List.mem_cons]
      constructor
      · rintro ⟨d, (rfl | hd), hs⟩
        · exact Or.inl ⟨d, Or.inl rfl, hs⟩
        · rcases (ih).mp ⟨d, hd, hs⟩ with ⟨d', hd', hs'⟩ | hs'
          · exact Or.inl ⟨d', Or.inr hd', hs'⟩
          · exact Or.inr hs'
      · rintro (⟨d, (rfl | hd), hs⟩ | hs)
        · exact ⟨d, Or.inl rfl, hs⟩
        · rcases (ih).mpr (Or.inl ⟨d, hd, hs⟩) with ⟨d', hd', hs'⟩
          exact ⟨d', Or.inr hd', hs'⟩
        · rcases (ih).mpr (Or.inr hs) with ⟨d', hd', hs'⟩
          exact ⟨d', Or.inr hd', hs'⟩

theorem mem_key_insertAll (l : List Change) (st : ChangeSet) (s : Span) :
    (∃ d ∈ (st.insertAll l).changes, d.keySpan = s) ↔
      (∃ d ∈ st.changes, d.keySpan = s) ∨ ∃ c ∈ l, c.keySpan = s := by
  induction l generalizing st with
  | nil => simp [ChangeSet.insertAll]
  | cons x xs ih =>
    have hstep : (st.insertAll (x :: xs)) = (st.add_change x).insertAll xs := rfl
    rw [hstep, ih]
    have hadd : (st.add_change x).changes = btreeInsert st.changes x := rfl
    rw [hadd, mem_key_btreeInsert]
    simp only [List.mem_cons]
    constructor
    · rintro ((h | h) | h)
      · exact Or.inl h
      · exact Or.inr ⟨x, Or.inl rfl, h⟩
      · rcases h with ⟨c, hc, hs⟩
        exact Or.inr ⟨c, Or.inr hc, hs⟩
    · rintro (h | ⟨c, (rfl | hc), hs⟩)
      · exact Or.inl (Or.inl h)
      · exact Or.inl (Or.inr hs)
      · exact Or.inr ⟨c, hc, hs⟩

/-! Deduplication: inserting a change whose key is already present leaves
the sorted set unchanged. -/

theorem btreeInsert_mem_eq {l : List Change} {c : Change}
    (hs : List.Pairwise (fun a b => Change.cmp a b = .lt) l)
    (hk : ∃ d ∈ l, Change.cmp c d = .eq) :
    btreeInsert l c = l := by
  induction l with
  | nil => simp at hk
  | cons x xs ih =>
    rcases hk with ⟨d, hd, hcd⟩
    rcases hcx : Change.cmp c x with _ | _ | _
    · exfalso
      rcases List.mem_cons.mp hd with rfl | hdxs
      · rw [hcx] at hcd; exact Ordering.noConfusion hcd
      · have hxd : Change.cmp x d = .lt := (List.pairwise_cons.mp hs).1 d hdxs
        have : Change.cmp c d = .lt := Change.cmp_trans_lt hcx hxd
        rw [this] at hcd; exact Ordering.noConfusion hcd
    · simp [btreeInsert, hcx]
    · have hdxs : d ∈ xs := by
        rcases List.mem_cons.mp hd with rfl | hdxs
        · rw [hcx] at hcd; exact Ordering.noConfusion hcd
        · exact hdxs
      have : btreeInsert xs c = xs :=
        ih (List.pairwise_cons.mp hs).2 ⟨d, hdxs, hcd⟩
      simp [btreeInsert, hcx, this]

/-! The claims. -/

/-- C1 counterexample: the derived order on `Change` compares the variant
discriminant first, so a unary change whose span is strictly greater than a
modification change's `new` span still compares less than it (`Removal(bar)`
at `[30,40)` versus a modification whose `new` span is `[10,20)`), refuting
the spans-first, discriminant-as-tie-break reading. -/
theorem C1_counterexample :
    Span.cmp remBar.keySpan binMod.keySpan = Ordering.gt ∧
    Change.cmp remBar binMod = Ordering.lt := by decide

/-- C1 (amended): the total order on `Change` compares the variant
discriminant first — every unary change orders strictly below every
modification change, regardless of their spans — and compares the key spans
(the record's span for a unary change, the `new` record's span for a
modification change) only between two changes of the same variant. -/
theorem C1_cross_variant_order :
    (∀ u b, Change.cmp (.Unary u) (.Binary b) = Ordering.lt) ∧
    (∀ b u, Change.cmp (.Binary b) (.Unary u) = Ordering.gt) ∧
    (∀ u1 u2, Change.cmp (.Unary u1) (.Unary u2) = Span.cmp u1.span u2.span) ∧
    (∀ b1 b2, Change.cmp (.Binary b1) (.Binary b2) =
      Span.cmp b1.new_span b2.new_span) :=
  ⟨fun _ _ => rfl, fun _ _ => rfl, fun _ _ => rfl, fun _ _ => rfl⟩

/-- C2 counterexample: inserting `Addition(foo)@[10,20)` and a removal at the
identical span in the two possible orders yields different concrete retained
change values (first-write-wins keeps whichever came first), so the final set
is not identical down to the retained representative. -/
theorem C2_counterexample :
    List.Perm [addFoo, remFooSpan] [remFooSpan, addFoo] ∧
    (ChangeSet.default.insertAll [addFoo, remFooSpan]).changes ≠
      (ChangeSet.default.insertAll [remFooSpan, addFoo]).changes ∧
    (ChangeSet.default.insertAll [addFoo, remFooSpan]).max =
      (ChangeSet.default.insertAll [remFooSpan, addFoo]).max := by
  refine ⟨List.Perm.swap remFooSpan addFoo [], ?_, ?_⟩ <;> decide

/-- C2 (amended): for any two insertion orders of the same changes, the final
`maxSeverity` is identical and equals the fold of the severity join over the
classified changes (`Patch` for the empty sequence), and the final sets carry
exactly the same equality keys (identical up to the span-equality relation);
the concrete change retained for a key, however, is the first one inserted
with that key and may differ between the two orders. -/
theorem C2_order_independence (l1 l2 : List Change) (h : List.Perm l1 l2) :
    (ChangeSet.default.insertAll l1).max = (ChangeSet.default.insertAll l2).max ∧
    (ChangeSet.default.insertAll l1).max =
      (l1.map Change.toCategory).foldl ChangeCategory.max ChangeCategory.Patch ∧
    ∀ s : Span,
      (∃ d ∈ (ChangeSet.default.insertAll l1).changes, d.keySpan = s) ↔
      (∃ d ∈ (ChangeSet.default.insertAll l2).changes, d.keySpan = s) := by
  refine ⟨?_, ?_, ?_⟩
  · rw [ChangeSet.insertAll_max, ChangeSet.insertAll_max]
    exact foldl_catMax_perm h _
  · rw [ChangeSet.insertAll_max, List.foldl_map]
    rfl
  · intro s
    rw [mem_key_insertAll, mem_key_insertAll]
    simp only [ChangeSet.default, List.not_mem_nil, false_and, exists_false,
      false_or]
    constructor <;> rintro ⟨c, hc, hs⟩
    · exact ⟨c, h.mem_iff.mp hc, hs⟩
    · exact ⟨c, h.mem_iff.mpr hc, hs⟩

/-- C2 witness: the amended order-independence theorem applied to the
two orders of inserting `Addition(foo)` and `Removal(bar)`. -/
theorem C2_witness :
    (ChangeSet.default.insertAll [addFoo, remBar]).max =
      (ChangeSet.default.insertAll [remBar, addFoo]).max ∧
    (ChangeSet.default.insertAll [addFoo, remBar]).max =
      ([addFoo, remBar].map Change.toCategory).foldl ChangeCategory.max
        ChangeCategory.Patch :=
  ⟨(C2_order_independence [addFoo, remBar] [remBar, addFoo]
      (List.Perm.swap remBar addFoo [])).1,
   (C2_order_independence [addFoo, remBar] [remBar, addFoo]
      (List.Perm.swap remBar addFoo [])).2.1⟩

/-- C3 counterexample: inserting `Removal` at `foo`'s span after
`Addition(foo)` retains the addition and discards the removal, yet the second
insertion raises `maxSeverity` (from `TechnicallyBreaking` to `Breaking`),
refuting the part of the claim saying the second insertion cannot change
`maxSeverity` beyond the first entry's contribution. -/
theorem C3_counterexample :
    Change.cmp remFooSpan addFoo = Ordering.eq ∧
    ((ChangeSet.default.add_change addFoo).add_change remFooSpan).changes =
      (ChangeSet.default.add_change addFoo).changes ∧
    ((ChangeSet.default.add_change addFoo).add_change remFooSpan).max ≠
      (ChangeSet.default.add_change addFoo).max := by decide

/-- C3 (amended): inserting a change whose equality key is already present in
a (sorted) aggregator leaves the change set unchanged — the earlier entry is
retained, the new one discarded, and no error is raised — but `maxSeverity`
becomes the join of its previous value with the classification of the
discarded change, which can exceed what the retained entry contributed. -/
theorem C3_duplicate_insert (st : ChangeSet) (c : Change)
    (hs : List.Pairwise (fun a b => Change.cmp a b = Ordering.lt) st.changes)
    (hk : ∃ d ∈ st.changes, Change.cmp c d = Ordering.eq) :
    (st.add_change c).changes = st.changes ∧
    (st.add_change c).max = ChangeCategory.max st.max c.toCategory :=
  ⟨btreeInsert_mem_eq hs hk, rfl⟩

/-- C3 witness: the duplicate-insert theorem applied to inserting a removal
at `foo`'s span into the aggregator already holding `Addition(foo)`. -/
theorem C3_witness :
    ((ChangeSet.default.add_change addFoo).add_change remFooSpan).changes =
      (ChangeSet.default.add_change addFoo).changes ∧
    ((ChangeSet.default.add_change addFoo).add_change remFooSpan).max =
      ChangeCategory.max (ChangeSet.default.add_change addFoo).max
        remFooSpan.toCategory :=
  C3_duplicate_insert (ChangeSet.default.add_change addFoo) remFooSpan
    (by decide) (by decide)

/-- C4: on every aggregator built from the empty one by insertions,
`maxSeverity` equals the join of the severities of all changes ever inserted
(`Patch` if none), and a single insertion — duplicate-keyed or not — never
decreases `maxSeverity`. -/
theorem C4_max_invariant :
    (∀ l : List Change,
      (ChangeSet.default.insertAll l).max =
        (l.map Change.toCategory).foldl ChangeCategory.max ChangeCategory.Patch) ∧
    ∀ (st : ChangeSet) (c : Change),
      st.max.toNat ≤ (st.add_change c).max.toNat := by
  constructor
  · intro l
    rw [ChangeSet.insertAll_max, List.foldl_map]
    rfl
  · intro st c
    show st.max.toNat ≤
      (if st.max.toNat < c.toCategory.toNat then c.toCategory else st.max).toNat
    split_ifs with h
    · exact Nat.le_of_lt h
    · exact Nat.le_refl _

/-- C5: the classification fixture — an addition classifies as
`TechnicallyBreaking`, a removal as `Breaking`, a modification with the
`Unknown` kind as `Breaking`, and an empty aggregation's severity is the
default `Patch`. -/
theorem C5_classification :
    (∀ e : Export,
      (UnaryChange.Addition e).toCategory = ChangeCategory.TechnicallyBreaking) ∧
    (∀ e : Export,
      (UnaryChange.Removal e).toCategory = ChangeCategory.Breaking) ∧
    (∀ eOld eNew : Export,
      (Change.new_binary BinaryChangeType.Unknown eOld eNew).toCategory =
        ChangeCategory.Breaking) ∧
    ChangeSet.default.max = ChangeCategory.Patch ∧
    ChangeCategory.default = ChangeCategory.Patch :=
  ⟨fun _ => rfl, fun _ => rfl, fun _ _ => rfl, rfl, rfl⟩

/-- C6: two unary changes are equal iff their underlying spans are equal,
irrespective of variant kind or identifier; in particular an `Addition` and a
`Removal` with identical spans are equal. -/
theorem C6_span_equality :
    (∀ c1 c2 : UnaryChange,
      UnaryChange.beq c1 c2 = true ↔ c1.span = c2.span) ∧
    ∀ e1 e2 : Export, e1.span = e2.span →
      UnaryChange.beq (UnaryChange.Addition e1) (UnaryChange.Removal e2) = true := by
  constructor
  · intro c1 c2
    simp [UnaryChange.beq]
  · intro e1 e2 h
    simp [UnaryChange.beq, UnaryChange.span, UnaryChange.export_, h]

/-- C6 witness: `Addition(foo)` and a removal at the identical span (with a
different identifier) are equal. -/
theorem C6_witness :
    UnaryChange.beq (UnaryChange.Addition fooExport)
      (UnaryChange.Removal barAtFooSpan) = true :=
  C6_span_equality.2 fooExport barAtFooSpan rfl

/-- C7: equality and comparison of modification events are functions of the
two `new` records' spans alone (the `old` records and the modification kinds
play no role), and the identifier accessor reads from the `old` record. -/
theorem C7_binary_key :
    (∀ b1 b2 : BinaryChange,
      BinaryChange.beq b1 b2 = true ↔ b1.new.span = b2.new.span) ∧
    (∀ b1 b2 : BinaryChange,
      BinaryChange.cmp b1 b2 = Span.cmp b1.new.span b2.new.span) ∧
    ∀ b : BinaryChange, b.ident = b.old.ident := by
  refine ⟨?_, fun _ _ => rfl, fun _ => rfl⟩
  intro b1 b2
  simp [BinaryChange.beq, BinaryChange.new_span]

/-- C8: the ordering on `Change` is transitive for `<`, `==` and `>`. -/
theorem C8_transitivity (c1 c2 c3 : Change) :
    (Change.cmp c1 c2 = Ordering.lt → Change.cmp c2 c3 = Ordering.lt →
      Change.cmp c1 c3 = Ordering.lt) ∧
    (Change.beq c1 c2 = true → Change.beq c2 c3 = true →
      Change.beq c1 c3 = true) ∧
    (Change.cmp c1 c2 = Ordering.gt → Change.cmp c2 c3 = Ordering.gt →
      Change.cmp c1 c3 = Ordering.gt) :=
  ⟨fun h1 h2 => Change.cmp_trans_lt h1 h2,
   fun h1 h2 => Change.beq_trans h1 h2,
   fun h1 h2 => Change.cmp_trans_gt h1 h2⟩

/-- C8 witness: transitivity applied to concrete `<`, `==` and `>` chains. -/
theorem C8_witness :
    Change.cmp addFoo binMod = Ordering.lt ∧
    Change.beq addFoo addFoo = true ∧
    Change.cmp binMod addFoo = Ordering.gt :=
  ⟨(C8_transitivity addFoo remBar binMod).1 (by decide) (by decide),
   (C8_transitivity addFoo remFooSpan addFoo).2.1 (by decide) (by decide),
   (C8_transitivity binMod remBar addFoo).2.2 (by decide) (by decide)⟩

/-- C9: inserting `Addition(foo)@[10,20)` then `Removal(bar)@[30,40)` into a
fresh aggregator yields `maxSeverity = Breaking` and the ordered change list
`[Addition(foo), Removal(bar)]`. -/
theorem C9_scenario :
    (ChangeSet.default.insertAll [addFoo, remBar]).max =
      ChangeCategory.Breaking ∧
    (ChangeSet.default.insertAll [addFoo, remBar]).changes =
      [addFoo, remBar] := by decide

/-- C10: after inserting `Addition(foo)` and then a removal at the identical
span, only the addition (severity `TechnicallyBreaking`) is retained while
`maxSeverity` is `Breaking` — strictly above the severity of every retained
change, because the duplicate's severity is folded into the maximum before
the change itself is discarded. -/
theorem C10_severity_gap :
    (ChangeSet.default.insertAll [addFoo, remFooSpan]).changes = [addFoo] ∧
    (ChangeSet.default.insertAll [addFoo, remFooSpan]).max =
      ChangeCategory.Breaking ∧
    addFoo.toCategory = ChangeCategory.TechnicallyBreaking ∧
    ∀ d ∈ (ChangeSet.default.insertAll [addFoo, remFooSpan]).changes,
      d.toCategory.toNat <
        (ChangeSet.default.insertAll [addFoo, remFooSpan]).max.toNat := by
  decide

end Semverver
